import Mathlib

/-!
Verification development for the YASMIJ.js Constraint component.

The JavaScript source under verification is `src/dev/Constraint.js` together
with the mixin utilities (`YASMIJ.getUniqueArray`, `YASMIJ.areObjectsSame`).
`Expression.js` is not part of the provided sources, so the Expression data
type and its primitive operations are modelled from the specification
(section 4.1 of the spec); every such definition is marked
"Modelled from the spec".  JavaScript numbers are modelled as exact
rationals; the float rounding of IEEE doubles is outside the model.
-/

namespace YASMIJ

/-! ## Character and string helpers (models of the JS regexes) -/

/-- Whitespace characters recognised by the JS `\s` class (common subset). -/
def isWsChar (c : Char) : Bool :=
  c == ' ' || c == '\t' || c == '\n' || c == '\r'

/-- Decimal digit test. -/
def isDigitChar (c : Char) : Bool :=
  '0' ≤ c && c ≤ '9'

/-- Hexadecimal digit test. -/
def isHexChar (c : Char) : Bool :=
  isDigitChar c || ('a' ≤ c && c ≤ 'f') || ('A' ≤ c && c ≤ 'F')

/-- Identifier characters: letters and underscore. -/
def isAlphaChar (c : Char) : Bool :=
  ('a' ≤ c && c ≤ 'z') || ('A' ≤ c && c ≤ 'Z') || c == '_'

/-- The operator character class `[+\-><=]` used by Constraint.js regexes. -/
def isOpChar (c : Char) : Bool :=
  c == '+' || c == '-' || c == '>' || c == '<' || c == '='

/-- The class `[+\-]`. -/
def isPlusMinus (c : Char) : Bool :=
  c == '+' || c == '-'

/-- `str.replace(/\s/g, "")` as a character list. -/
def removeWs (s : String) : List Char :=
  s.toList.filter (fun c => !isWsChar c)

/-- Whether `pat` occurs at the head of `s`. -/
def startsWithChars : List Char → List Char → Bool
  | [], _ => true
  | _ :: _, [] => false
  | p :: ps, c :: cs => p == c && startsWithChars ps cs

/-- Whether `pat` occurs anywhere in `s` (the JS substring regex test). -/
def hasSubChars (pat : List Char) : List Char → Bool
  | [] => startsWithChars pat []
  | c :: cs => startsWithChars pat (c :: cs) || hasSubChars pat cs

/-- `new RegExp(pat).test(s)` for a plain-text pattern: substring containment. -/
def strTestSub (pat s : String) : Bool :=
  hasSubChars pat.toList s.toList

/-! ## Expression (modelled from the spec) -/

/-- Modelled from the spec: `Expression.js` is absent from `src/`.  Per spec
section 3, an Expression is a mapping from term names to coefficients with the
reserved name "1" for the constant term; JS objects keep string keys unique,
so we represent the mapping as an insertion-ordered association list whose
keys are unique by construction. -/
structure Expression where
  terms : List (String × ℚ)
deriving DecidableEq, Repr

/-- Modelled from the spec: `hasTerm(name)`. -/
def Expression.hasTerm (e : Expression) (name : String) : Bool :=
  e.terms.any (fun p => p.1 == name)

/-- Modelled from the spec: `getTermValue(name)` returns 0 if absent. -/
def Expression.getTermValue (e : Expression) (name : String) : ℚ :=
  match e.terms.find? (fun p => p.1 == name) with
  | some p => p.2
  | none => 0

/-- Accumulate `q` into the (first, hence unique) entry named `n`. -/
def updateFirst : List (String × ℚ) → String → ℚ → List (String × ℚ)
  | [], _, _ => []
  | p :: rest, n, q =>
    if p.1 = n then (p.1, p.2 + q) :: rest else p :: updateFirst rest n q

/-- Modelled from the spec: `addTerm(name, value)` adds `value` to the existing
coefficient for `name`, creating the term if absent. -/
def Expression.addTerm (e : Expression) (n : String) (q : ℚ) : Expression :=
  if e.hasTerm n then ⟨updateFirst e.terms n q⟩ else ⟨e.terms ++ [(n, q)]⟩

/-- Modelled from the spec: `removeTerm(name)` deletes the term. -/
def Expression.removeTerm (e : Expression) (n : String) : Expression :=
  ⟨e.terms.filter (fun p => !(p.1 == n))⟩

/-- Modelled from the spec: `scale(factor)` multiplies every coefficient. -/
def Expression.scale (e : Expression) (factor : ℚ) : Expression :=
  ⟨e.terms.map (fun p => (p.1, p.2 * factor))⟩

/-- Modelled from the spec: `inverse()` is `scale(-1)`. -/
def Expression.inverse (e : Expression) : Expression :=
  e.scale (-1)

/-- The term names, in insertion order.  Modelled from the spec:
`getTermNames()` returns the term names present. -/
def Expression.getTermNames (e : Expression) : List String :=
  e.terms.map Prod.fst

/-- Modelled from the spec: the terms visited by `forEachVariable` —
every term whose name is not the reserved constant name "1". -/
def Expression.variableTerms (e : Expression) : List (String × ℚ) :=
  e.terms.filter (fun p => !(p.1 == "1"))

/-- Modelled from the spec: the terms visited by `forEachConstant` —
the reserved constant term "1" when present. -/
def Expression.constantTerms (e : Expression) : List (String × ℚ) :=
  e.terms.filter (fun p => p.1 == "1")

/-- Value of an Expression under an assignment of the variables; the reserved
constant term "1" contributes its coefficient directly. -/
def Expression.eval (e : Expression) (v : String → ℚ) : ℚ :=
  (e.terms.map (fun p => if p.1 = "1" then p.2 else p.2 * v p.1)).sum

/-! ## Constraint (from src/dev/Constraint.js)

The JS constructor also sets a field `terms` to `{}`; no method of
Constraint.js ever reads or writes it, so it is omitted from the record. -/

/-- The Constraint record: `comparison`, `leftSide`, `rightSide`, `slackValue`
(Constraint.js, constructor). -/
structure Constraint where
  comparison : String
  leftSide : Expression
  rightSide : Expression
  slackValue : ℚ
deriving DecidableEq, Repr

/-- `Constraint.EPSILON = 1e-6` (Constraint.js line 29), as an exact rational. -/
def Constraint.EPSILON : ℚ := 1 / 1000000

/-- `Constraint.switchSides(sideA, sideB, forEachTermFunc)` (Constraint.js
lines 95-100): for each visited term, `sideB.addTerm(name, -value)` then
`sideA.removeTerm(name)`.  The iterated term list is a snapshot of the visited
terms of `sideA`. -/
def Constraint.switchSidesMove (sideA sideB : Expression)
    (moved : List (String × ℚ)) : Expression × Expression :=
  moved.foldl (fun ab p => (ab.1.removeTerm p.1, ab.2.addTerm p.1 (-p.2)))
    (sideA, sideB)

/-- `moveTypeToOneSide(varSide, numSide)` (Constraint.js lines 197-210):
if `/left|right/.test(varSide)`, move the variable terms of the side opposite
`varSide` onto `varSide` (via `getSwappedSides` and `switchSides`), then
likewise move the constant terms onto `numSide`. -/
def Constraint.moveTypeToOneSide (c : Constraint) (varSide numSide : String) :
    Constraint :=
  let c1 :=
    if strTestSub "left" varSide || strTestSub "right" varSide then
      let doSwap := strTestSub "left" varSide
      let a := if doSwap then c.rightSide else c.leftSide
      let b := if doSwap then c.leftSide else c.rightSide
      let ab := Constraint.switchSidesMove a b a.variableTerms
      if doSwap then { c with rightSide := ab.1, leftSide := ab.2 }
      else { c with leftSide := ab.1, rightSide := ab.2 }
    else c
  if strTestSub "left" numSide || strTestSub "right" numSide then
    let doSwap := strTestSub "left" numSide
    let a := if doSwap then c1.rightSide else c1.leftSide
    let b := if doSwap then c1.leftSide else c1.rightSide
    let ab := Constraint.switchSidesMove a b a.constantTerms
    if doSwap then { c1 with rightSide := ab.1, leftSide := ab.2 }
    else { c1 with leftSide := ab.1, rightSide := ab.2 }
  else c1

/-- `inverse()` (Constraint.js lines 218-222): negate both sides. -/
def Constraint.inverse (c : Constraint) : Constraint :=
  { c with leftSide := c.leftSide.inverse, rightSide := c.rightSide.inverse }

/-- `negateComparison()` (Constraint.js lines 230-242): flip the comparison
per the `oppositeCompare` map and call `inverse()`; comparisons outside the
map (such as "=") are left untouched. -/
def Constraint.negateComparison (c : Constraint) : Constraint :=
  let opposite : Option String :=
    if c.comparison = ">=" then some "<"
    else if c.comparison = ">" then some "<="
    else if c.comparison = "<=" then some ">"
    else if c.comparison = "<" then some ">="
    else none
  match opposite with
  | some newCmp => { c.inverse with comparison := newCmp }
  | none => c

/-- `removeStrictInEquality()` (Constraint.js lines 250-258): for a strict
comparison append "=" to it, then add `EPSILON * (/>/.test(comparison) ? 1
: -1)` — computed on the already-updated comparison — to the constant term
"1" of `rightSide`. -/
def Constraint.removeStrictInEquality (c : Constraint) : Constraint :=
  if c.comparison = "<" || c.comparison = ">" then
    let newCmp := c.comparison ++ "="
    let eps := Constraint.EPSILON * (if strTestSub ">" newCmp then 1 else -1)
    { c with comparison := newCmp, rightSide := c.rightSide.addTerm "1" eps }
  else c

/-- `normalize()` (Constraint.js lines 262-264). -/
def Constraint.normalize (c : Constraint) : Constraint :=
  (c.moveTypeToOneSide "left" "right").removeStrictInEquality

/-- `addSurplus()` (Constraint.js lines 272-275). -/
def Constraint.addSurplus (c : Constraint) : Constraint :=
  { c with slackValue := -1, leftSide := c.leftSide.addTerm "surplus" (-1) }

/-- `addSlack()` (Constraint.js lines 276-279). -/
def Constraint.addSlack (c : Constraint) : Constraint :=
  { c with slackValue := 1, leftSide := c.leftSide.addTerm "slack" 1 }

/-- `getStandardMaxForm()` (Constraint.js lines 280-290). -/
def Constraint.getStandardMaxForm (c : Constraint) : Constraint :=
  let n := c.normalize
  let n2 :=
    if n.comparison = "<=" then n.addSlack
    else if n.comparison = ">=" then n.addSurplus
    else n
  { n2 with comparison := "=" }

/-- `scale(factor)` (Constraint.js lines 291-295). -/
def Constraint.scale (c : Constraint) (factor : ℚ) : Constraint :=
  { c with leftSide := c.leftSide.scale factor,
           rightSide := c.rightSide.scale factor }

/-! ## The JS `isNaN(string)` test

`varSwitchSide` calls `isNaN(name)`; a string is "numeric" when `ToNumber`
on it does not yield NaN.  The model covers the StringNumericLiteral
grammar: optional whitespace, then the empty string (value 0), a signed
decimal literal (digits, optional fraction, optional exponent, or
"Infinity"), or an unsigned hex literal. -/

/-- Split a leading run of decimal digits from the rest. -/
def takeDigitsList : List Char → List Char × List Char
  | [] => ([], [])
  | c :: cs =>
    if isDigitChar c then
      let dr := takeDigitsList cs
      (c :: dr.1, dr.2)
    else ([], c :: cs)

/-- Split a leading run of hex digits from the rest. -/
def takeHexList : List Char → List Char × List Char
  | [] => ([], [])
  | c :: cs =>
    if isHexChar c then
      let dr := takeHexList cs
      (c :: dr.1, dr.2)
    else ([], c :: cs)

/-- Require at least one decimal digit; return the remainder. -/
def mandDigits (cs : List Char) : Option (List Char) :=
  let dr := takeDigitsList cs
  if dr.1.isEmpty then none else some dr.2

/-- Exponent digits with optional sign. -/
def expDigits : List Char → Option (List Char)
  | '+' :: rest => mandDigits rest
  | '-' :: rest => mandDigits rest
  | cs => mandDigits cs

/-- Optional exponent part `e`/`E` followed by signed digits. -/
def expTail : List Char → Option (List Char)
  | 'e' :: rest => expDigits rest
  | 'E' :: rest => expDigits rest
  | cs => some cs

/-- Remainder after an unsigned decimal literal (or "Infinity"); `none` when
no valid literal starts here. -/
def decTail (cs : List Char) : Option (List Char) :=
  if startsWithChars ("Infinity".toList) cs then some (cs.drop 8)
  else
    let d1 := takeDigitsList cs
    match d1.2 with
    | '.' :: r2 =>
      let d2 := takeDigitsList r2
      if d1.1.isEmpty && d2.1.isEmpty then none else expTail d2.2
    | _ => if d1.1.isEmpty then none else expTail d1.2

/-- Require at least one hex digit; return the remainder. -/
def mandHexDigits (cs : List Char) : Option (List Char) :=
  let dr := takeHexList cs
  if dr.1.isEmpty then none else some dr.2

/-- The remainder after the literal must be all whitespace. -/
def restAllWs : Option (List Char) → Bool
  | some cs => cs.all (fun c => isWsChar c)
  | none => false

/-- `isNaN(s) == false` for a string `s`: the JS ToNumber conversion of `s`
yields an actual number. -/
def jsStrIsNumeric (s : String) : Bool :=
  match s.toList.dropWhile (fun c => isWsChar c) with
  | [] => true
  | '0' :: 'x' :: rest => restAllWs (mandHexDigits rest)
  | '0' :: 'X' :: rest => restAllWs (mandHexDigits rest)
  | '+' :: rest => restAllWs (decTail rest)
  | '-' :: rest => restAllWs (decTail rest)
  | cs => restAllWs (decTail cs)

/-- `varSwitchSide(name, moveTo)` (Constraint.js lines 296-309): no-op unless
`/left|right/.test(moveTo)`; a numeric `name` (per `isNaN`) is replaced by
"1"; the term is then moved, negated, from the side opposite `moveTo`
(exact comparison `"left" === moveTo`) to `moveTo`, when present. -/
def Constraint.varSwitchSide (c : Constraint) (name moveTo : String) :
    Constraint :=
  if !(strTestSub "left" moveTo || strTestSub "right" moveTo) then c
  else
    let name2 := if jsStrIsNumeric name then "1" else name
    if moveTo = "left" then
      if c.rightSide.hasTerm name2 then
        { c with
          leftSide := c.leftSide.addTerm name2 (-(c.rightSide.getTermValue name2)),
          rightSide := c.rightSide.removeTerm name2 }
      else c
    else
      if c.leftSide.hasTerm name2 then
        { c with
          rightSide := c.rightSide.addTerm name2 (-(c.leftSide.getTermValue name2)),
          leftSide := c.leftSide.removeTerm name2 }
      else c

/-! ## Input validation (Constraint.js lines 43-91) -/

/-- Number of matches of the global regex `/[<>]=?|=/g`: a greedy
left-to-right scan counting comparison tokens. -/
def countCompares : List Char → Nat
  | [] => 0
  | '<' :: '=' :: rest => 1 + countCompares rest
  | '<' :: rest => 1 + countCompares rest
  | '>' :: '=' :: rest => 1 + countCompares rest
  | '>' :: rest => 1 + countCompares rest
  | '=' :: rest => 1 + countCompares rest
  | _ :: rest => countCompares rest

/-- `Constraint.hasManyCompares(str)` (lines 43-47): more than one comparison
token in the whitespace-stripped string. -/
def Constraint.hasManyCompares (s : String) : Bool :=
  decide (1 < countCompares (removeWs s))

/-- The regex `/[+\-][><=+\-]|[><=+\-]$/` on the whitespace-stripped string:
a `+`/`-` immediately followed by an operator character, or an operator
character at the end of the string. -/
def hasNoLeftRight : List Char → Bool
  | [] => false
  | [c] => isOpChar c
  | c1 :: c2 :: rest => (isPlusMinus c1 && isOpChar c2) || hasNoLeftRight (c2 :: rest)

/-- The regex test `/[^+\-><=]\s+[^+\-><=]/` on the original string.  With
backtracking this matches exactly when three consecutive characters are
non-operator, whitespace, non-operator (whitespace is itself in the
non-operator class). -/
def hasNoOpBetween : List Char → Bool
  | c1 :: c2 :: c3 :: rest =>
    (!isOpChar c1 && isWsChar c2 && !isOpChar c3) || hasNoOpBetween (c2 :: c3 :: rest)
  | _ => false

/-- `Constraint.hasIncompleteBinaryOperator(str)` (lines 55-61). -/
def Constraint.hasIncompleteBinaryOperator (s : String) : Bool :=
  hasNoLeftRight (removeWs s) || hasNoOpBetween s.toList

/-- `Constraint.getErrorMessage(str)` (lines 69-78). -/
def Constraint.getErrorMessage (s : String) : Option String :=
  if Constraint.hasManyCompares s then
    some "Only 1 comparision (<,>,=, >=, <=) is allow in a Constraint."
  else if Constraint.hasIncompleteBinaryOperator s then
    some "Math operators must be in between terms. Good:(a+b=c). Bad:(a b+=c)"
  else none

/-! ## Expression parsing (modelled from the spec)

Spec section 4.1/6: an expression is a signed sum of terms of the form
`[sign] coefficient? name?`; a bare number is a constant term under the
reserved name "1", a bare name implies coefficient 1; parsing fails when the
text is empty or a token matches no valid term. -/

/-- Split the character stream at `+`/`-` into sign-carrying tokens
(`true` = positive). -/
def splitOnSigns (sign : Bool) (acc : List Char) :
    List Char → List (Bool × List Char)
  | [] => [(sign, acc.reverse)]
  | '+' :: rest => (sign, acc.reverse) :: splitOnSigns true [] rest
  | '-' :: rest => (sign, acc.reverse) :: splitOnSigns false [] rest
  | c :: rest => splitOnSigns sign (c :: acc) rest

/-- Leading run of identifier-start then identifier characters. -/
def takeNameRest : List Char → List Char × List Char
  | [] => ([], [])
  | c :: cs =>
    if isAlphaChar c || isDigitChar c then
      let dr := takeNameRest cs
      (c :: dr.1, dr.2)
    else ([], c :: cs)

/-- Leading identifier (letter or underscore, then alphanumerics). -/
def takeName : List Char → List Char × List Char
  | [] => ([], [])
  | c :: cs =>
    if isAlphaChar c then
      let dr := takeNameRest cs
      (c :: dr.1, dr.2)
    else ([], c :: cs)

/-- Numeric value of a digit run. -/
def digitsToNat (l : List Char) : Nat :=
  l.foldl (fun n c => 10 * n + (c.toNat - '0'.toNat)) 0

/-- Leading numeric coefficient `digits [. digits]`, if any. -/
def takeCoeff (cs : List Char) : Option ℚ × List Char :=
  let d1 := takeDigitsList cs
  if d1.1.isEmpty then (none, cs)
  else
    match d1.2 with
    | '.' :: r2 =>
      let d2 := takeDigitsList r2
      if d2.1.isEmpty then (some (digitsToNat d1.1), '.' :: r2)
      else
        (some ((digitsToNat d1.1 : ℚ) + (digitsToNat d2.1 : ℚ) / 10 ^ d2.1.length),
          d2.2)
    | _ => (some (digitsToNat d1.1), d1.2)

/-- Modelled from the spec: a single token `coefficient? name?` with its sign;
a bare number is a constant term under "1", a bare name has coefficient 1;
empty or left-over characters are invalid. -/
def parseTerm : Bool × List Char → Option (String × ℚ)
  | (sign, cs) =>
    let cr := takeCoeff cs
    let nr := takeName cr.2
    if !nr.2.isEmpty then none
    else
      match cr.1, nr.1.isEmpty with
      | none, true => none
      | none, false => some (String.mk nr.1, if sign then 1 else -1)
      | some q, true => some ("1", if sign then q else -q)
      | some q, false => some (String.mk nr.1, if sign then q else -q)

/-- Parse every token or fail. -/
def parseAllTerms : List (Bool × List Char) → Option (List (String × ℚ))
  | [] => some []
  | t :: rest =>
    match parseTerm t, parseAllTerms rest with
    | some x, some xs => some (x :: xs)
    | _, _ => none

/-- Tokenize a whitespace-free character stream into signed terms; a leading
`+`/`-` is the sign of the first term. -/
def parseTermList (cs : List Char) : Option (List (String × ℚ)) :=
  let toks := splitOnSigns true [] cs
  let toks2 :=
    match toks with
    | (true, []) :: rest => if rest.isEmpty then toks else rest
    | _ => toks
  parseAllTerms toks2

/-- Modelled from the spec: `Expression.parse(text)` accumulates the parsed
signed terms with `addTerm`, failing on empty or invalid input. -/
def Expression.parse (s : String) : Except String Expression :=
  match parseTermList (removeWs s) with
  | some l => Except.ok (l.foldl (fun e p => e.addTerm p.1 p.2) ⟨[]⟩)
  | none => Except.error "Unable to parse expression"

/-! ## Constraint parsing (Constraint.js lines 119-151) -/

/-- First comparison token at the head of the stream, with maximal munch. -/
def compareAt (cs : List Char) : Option (String × List Char) :=
  match cs with
  | [] => none
  | c :: rest =>
    if c = '<' then
      if rest.head? = some '=' then some ("<=", rest.tail) else some ("<", rest)
    else if c = '>' then
      if rest.head? = some '=' then some (">=", rest.tail) else some (">", rest)
    else if c = '=' then some ("=", rest)
    else none

/-- Split the raw string at the first match of `/[><]=?|=/`, returning the
text before, the matched comparison, and the text after. -/
def findComparisonSplit : List Char → Option (List Char × String × List Char)
  | [] => none
  | c :: rest =>
    match compareAt (c :: rest) with
    | some cr => some ([], cr.1, cr.2)
    | none =>
      match findComparisonSplit rest with
      | some lr => some (c :: lr.1, lr.2.1, lr.2.2)
      | none => none

/-- The comparison operator of the raw string: the first regex match, or the
default "=" when none is present. -/
def cmpOf (s : String) : String :=
  match findComparisonSplit s.toList with
  | none => "="
  | some lcr => lcr.2.1

/-- The left-hand-side text: everything before the first comparison, or the
whole string when none is present. -/
def lhsStrOf (s : String) : String :=
  match findComparisonSplit s.toList with
  | none => s
  | some lcr => String.mk lcr.1

/-- The right-hand-side text: everything after the first comparison, or the
default "0" when none is present. -/
def rhsStrOf (s : String) : String :=
  match findComparisonSplit s.toList with
  | none => "0"
  | some lcr => String.mk lcr.2.2

/-- `Constraint.parse` / `Constraint.parseToObject` (lines 119-151):
`checkInput` throws on a validation error; otherwise the string is split at
the first comparison match (defaulting to `= 0` when none is present) and
both sides are parsed as Expressions; `slackValue` starts at 0. -/
def Constraint.parse (s : String) : Except String Constraint :=
  match Constraint.getErrorMessage s with
  | some msg => Except.error msg
  | none =>
    match Expression.parse (lhsStrOf s), Expression.parse (rhsStrOf s) with
    | Except.ok lhs, Except.ok rhs => Except.ok ⟨cmpOf s, lhs, rhs, 0⟩
    | Except.error e, _ => Except.error e
    | _, Except.error e => Except.error e

/-! ## Mixin utilities (src/unnamed/part_000) -/

/-- The enumerable-lookup-visible property names inherited from
`Object.prototype` in an ES5 environment: reading `hash[name]` for any of
these yields a truthy (function or object) value even on a fresh `{}`. -/
def objectPrototypeProps : List String :=
  ["constructor", "hasOwnProperty", "isPrototypeOf", "propertyIsEnumerable",
   "toLocaleString", "toString", "valueOf", "__proto__",
   "__defineGetter__", "__defineSetter__", "__lookupGetter__", "__lookupSetter__"]

/-- The loop of `YASMIJ.getUniqueArray` (part_000 lines 32-44): push `x` and
record it in the hash unless `hash[x]` is already truthy — which happens both
when `x` was pushed before and when `x` is a property inherited from
`Object.prototype`. -/
def getUniqueArrayAux : List String → List String → List String
  | [], _ => []
  | x :: rest, seen =>
    if x ∈ objectPrototypeProps || x ∈ seen then getUniqueArrayAux rest seen
    else x :: getUniqueArrayAux rest (x :: seen)

/-- `YASMIJ.getUniqueArray(arr)` (part_000 lines 32-44). -/
def getUniqueArray (arr : List String) : List String :=
  getUniqueArrayAux arr []

/-- `Constraint.prototype.getTermNames()` (Constraint.js lines 108-111). -/
def Constraint.getTermNames (c : Constraint) : List String :=
  getUniqueArray (c.leftSide.getTermNames ++ c.rightSide.getTermNames)

/-- First-occurrence de-duplication as the claim words it: keep the first
occurrence of each name in order, drop later duplicates. -/
def dedupFirstOccAux : List String → List String → List String
  | [], _ => []
  | x :: rest, seen =>
    if x ∈ seen then dedupFirstOccAux rest seen
    else x :: dedupFirstOccAux rest (x :: seen)

/-- First-occurrence de-duplication (claim-side definition). -/
def dedupFirstOcc (l : List String) : List String :=
  dedupFirstOccAux l []

/-! ## Structural equality (`YASMIJ.areObjectsSame`, part_000 lines 45-73)

The walk iterates the own-enumerable properties of its FIRST argument only.
A nested object recurses; a scalar is compared via `toString()`.  When the
first object holds a scalar property that the second object lacks, the call
`b.toString()` with `b === undefined` throws a TypeError: this outcome is
modelled as `none`. -/

/-- Coefficient of `n` in the term list, if present. -/
def termsLookup (l : List (String × ℚ)) (n : String) : Option ℚ :=
  match l.find? (fun p => p.1 == n) with
  | some p => some p.2
  | none => none

/-- The for-in walk of `areObjectsSame` over the first term object:
`some false` at the first differing coefficient, `none` (TypeError) at the
first term missing from the second object, `some true` when every term of
the first object matches. -/
def exprSameWalk : List (String × ℚ) → List (String × ℚ) → Option Bool
  | [], _ => some true
  | p :: rest, l2 =>
    match termsLookup l2 p.1 with
    | none => none
    | some w => if p.2 = w then exprSameWalk rest l2 else some false

/-- Whether an assignment of rational values to the variables satisfies a
Constraint, reading the comparison operator mathematically. -/
def Constraint.satisfied (c : Constraint) (v : String → ℚ) : Prop :=
  if c.comparison = "<" then c.leftSide.eval v < c.rightSide.eval v
  else if c.comparison = "<=" then c.leftSide.eval v ≤ c.rightSide.eval v
  else if c.comparison = ">" then c.leftSide.eval v > c.rightSide.eval v
  else if c.comparison = ">=" then c.leftSide.eval v ≥ c.rightSide.eval v
  else if c.comparison = "=" then c.leftSide.eval v = c.rightSide.eval v
  else True

/-- Removing, in order, every term of `l` from `e` (the `sideA` component of
`switchSides`). -/
def removeAllFold (e : Expression) (l : List (String × ℚ)) : Expression :=
  l.foldl (fun e p => e.removeTerm p.1) e

/-- Adding, in order, every term of `l` negated to `e` (the `sideB` component
of `switchSides`). -/
def addAllFold (e : Expression) (l : List (String × ℚ)) : Expression :=
  l.foldl (fun e p => e.addTerm p.1 (-p.2)) e

/-- `areObjectsSame` applied to two Constraints: walk the receiver's fields
in insertion order (`comparison`, `leftSide`, `rightSide`, `slackValue`),
recursing into the Expression term objects and string-comparing the
scalars.  (`Constraint.equals`, Constraint.js lines 33-35.) -/
def Constraint.equalsWalk (a b : Constraint) : Option Bool :=
  if a.comparison ≠ b.comparison then some false
  else
    match exprSameWalk a.leftSide.terms b.leftSide.terms with
    | none => none
    | some false => some false
    | some true =>
      match exprSameWalk a.rightSide.terms b.rightSide.terms with
      | none => none
      | some false => some false
      | some true => some (decide (a.slackValue = b.slackValue))

/-! ## Lemmas about the Expression operations -/

@[simp] lemma strTestSub_left_left : strTestSub "left" "left" = true := by decide

@[simp] lemma strTestSub_right_left : strTestSub "right" "left" = false := by decide

@[simp] lemma strTestSub_left_right : strTestSub "left" "right" = false := by decide

@[simp] lemma strTestSub_right_right : strTestSub "right" "right" = true := by decide

lemma switchSidesMove_eq (l : List (String × ℚ)) :
    ∀ a b : Expression,
      Constraint.switchSidesMove a b l = (removeAllFold a l, addAllFold b l) := by
  induction l with
  | nil => intro a b; rfl
  | cons p l ih =>
    intro a b
    show Constraint.switchSidesMove (a.removeTerm p.1) (b.addTerm p.1 (-p.2)) l = _
    rw [ih]
    rfl

lemma mem_removeTerm {p : String × ℚ} {e : Expression} {n : String} :
    p ∈ (e.removeTerm n).terms ↔ p ∈ e.terms ∧ p.1 ≠ n := by
  simp [Expression.removeTerm, List.mem_filter]

lemma mem_removeAllFold {l : List (String × ℚ)} :
    ∀ {e : Expression} {p : String × ℚ},
      p ∈ (removeAllFold e l).terms ↔ p ∈ e.terms ∧ ∀ q ∈ l, p.1 ≠ q.1 := by
  induction l with
  | nil => intro e p; simp [removeAllFold]
  | cons q l ih =>
    intro e p
    show p ∈ (removeAllFold (e.removeTerm q.1) l).terms ↔ _
    rw [ih, mem_removeTerm, List.forall_mem_cons]
    tauto

lemma updateFirst_map_fst (n : String) (q : ℚ) :
    ∀ l : List (String × ℚ), (updateFirst l n q).map Prod.fst = l.map Prod.fst := by
  intro l
  induction l with
  | nil => rfl
  | cons p rest ih => by_cases h : p.1 = n <;> simp [updateFirst, h, ih]

lemma getTermNames_addTerm (e : Expression) (n : String) (q : ℚ) :
    (e.addTerm n q).getTermNames =
      if e.hasTerm n then e.getTermNames else e.getTermNames ++ [n] := by
  by_cases h : e.hasTerm n <;>
    simp [Expression.addTerm, h, Expression.getTermNames, updateFirst_map_fst]

lemma mem_names_addTerm {x : String} {e : Expression} {n : String} {q : ℚ}
    (h : x ∈ (e.addTerm n q).getTermNames) : x ∈ e.getTermNames ∨ x = n := by
  by_cases hh : e.hasTerm n
  · rw [getTermNames_addTerm, if_pos hh] at h
    exact Or.inl h
  · rw [getTermNames_addTerm, if_neg hh] at h
    rcases List.mem_append.mp h with h1 | h1
    · exact Or.inl h1
    · simp only [List.mem_singleton] at h1
      exact Or.inr h1

lemma mem_names_addAllFold {l : List (String × ℚ)} :
    ∀ {e : Expression} {x : String}, x ∈ (addAllFold e l).getTermNames →
      x ∈ e.getTermNames ∨ x ∈ l.map Prod.fst := by
  induction l with
  | nil => intro e x h; exact Or.inl h
  | cons q l ih =>
    intro e x h
    have h2 : x ∈ (addAllFold (e.addTerm q.1 (-q.2)) l).getTermNames := h
    rcases ih h2 with h3 | h3
    · rcases mem_names_addTerm h3 with h4 | h4
      · exact Or.inl h4
      · exact Or.inr (by simp [h4])
    · exact Or.inr (by simp [h3])

lemma mem_terms_name {p : String × ℚ} {e : Expression} (h : p ∈ e.terms) :
    p.1 ∈ e.getTermNames :=
  List.mem_map_of_mem Prod.fst h

lemma hasTerm_iff_mem_names {e : Expression} {n : String} :
    e.hasTerm n = true ↔ n ∈ e.getTermNames := by
  simp [Expression.hasTerm, Expression.getTermNames, List.any_eq_true]

lemma addTerm_of_not_mem {e : Expression} {n : String}
    (h : n ∉ e.getTermNames) (q : ℚ) :
    (e.addTerm n q).terms = e.terms ++ [(n, q)] := by
  have hh : e.hasTerm n = false := by
    cases hc : e.hasTerm n
    · rfl
    · exact absurd (hasTerm_iff_mem_names.mp hc) h
  simp [Expression.addTerm, hh]

/-! ## Lemmas about normalization -/

lemma moveLR_eq (c : Constraint) :
    c.moveTypeToOneSide "left" "right" =
      { c with
        leftSide := removeAllFold (addAllFold c.leftSide c.rightSide.variableTerms)
          (addAllFold c.leftSide c.rightSide.variableTerms).constantTerms,
        rightSide := addAllFold (removeAllFold c.rightSide c.rightSide.variableTerms)
          (addAllFold c.leftSide c.rightSide.variableTerms).constantTerms } := by
  simp [Constraint.moveTypeToOneSide, switchSidesMove_eq]

lemma moveLR_leftSide_var (c : Constraint) :
    ∀ p ∈ (c.moveTypeToOneSide "left" "right").leftSide.terms, p.1 ≠ "1" := by
  intro p hp
  rw [moveLR_eq] at hp
  obtain ⟨h1, h2⟩ := mem_removeAllFold.mp hp
  intro hone
  have hmem : p ∈ (addAllFold c.leftSide c.rightSide.variableTerms).constantTerms :=
    List.mem_filter.mpr ⟨h1, by simp [hone]⟩
  exact h2 p hmem rfl

lemma moveLR_rightSide_const (c : Constraint) :
    ∀ p ∈ (c.moveTypeToOneSide "left" "right").rightSide.terms, p.1 = "1" := by
  intro p hp
  rw [moveLR_eq] at hp
  rcases mem_names_addAllFold (mem_terms_name hp) with h | h
  · obtain ⟨q, hq, hq2⟩ := List.mem_map.mp h
    obtain ⟨hq3, hq4⟩ := mem_removeAllFold.mp hq
    by_contra hne
    have hqv : q ∈ c.rightSide.variableTerms := by
      refine List.mem_filter.mpr ⟨hq3, ?_⟩
      simp [hq2]
      intro hq1
      exact hne (hq2 ▸ hq1)
    exact hq4 q hqv rfl
  · obtain ⟨q, hq, hq2⟩ := List.mem_map.mp h
    have hq1 : q.1 = "1" := by
      have := (List.mem_filter.mp hq).2
      simpa using this
    rw [← hq2]
    exact hq1

lemma moveLR_comparison (c : Constraint) :
    (c.moveTypeToOneSide "left" "right").comparison = c.comparison := by
  rw [moveLR_eq]

lemma moveLR_slackValue (c : Constraint) :
    (c.moveTypeToOneSide "left" "right").slackValue = c.slackValue := by
  rw [moveLR_eq]

lemma removeStrict_leftSide (c : Constraint) :
    c.removeStrictInEquality.leftSide = c.leftSide := by
  unfold Constraint.removeStrictInEquality
  split <;> rfl

lemma removeStrict_slackValue (c : Constraint) :
    c.removeStrictInEquality.slackValue = c.slackValue := by
  unfold Constraint.removeStrictInEquality
  split <;> rfl

lemma removeStrict_comparison (c : Constraint) :
    c.removeStrictInEquality.comparison =
      if c.comparison = "<" || c.comparison = ">" then c.comparison ++ "="
      else c.comparison := by
  unfold Constraint.removeStrictInEquality
  split <;> simp_all

lemma removeStrict_rightSide_cases (c : Constraint) :
    c.removeStrictInEquality.rightSide = c.rightSide ∨
      ∃ q, c.removeStrictInEquality.rightSide = c.rightSide.addTerm "1" q := by
  unfold Constraint.removeStrictInEquality
  split
  · exact Or.inr ⟨_, rfl⟩
  · exact Or.inl rfl

lemma removeStrict_of_nonstrict {c : Constraint}
    (h1 : c.comparison ≠ "<") (h2 : c.comparison ≠ ">") :
    c.removeStrictInEquality = c := by
  unfold Constraint.removeStrictInEquality
  rw [if_neg]
  simp [h1, h2]

lemma normalize_comparison (c : Constraint) :
    c.normalize.comparison =
      if c.comparison = "<" then "<="
      else if c.comparison = ">" then ">=" else c.comparison := by
  have h := removeStrict_comparison (c.moveTypeToOneSide "left" "right")
  rw [moveLR_comparison] at h
  rw [Constraint.normalize, h]
  by_cases h1 : c.comparison = "<"
  · simp [h1]
  · by_cases h2 : c.comparison = ">"
    · simp [h1, h2]
    · simp [h1, h2]

lemma normalize_slackValue (c : Constraint) :
    c.normalize.slackValue = c.slackValue := by
  rw [Constraint.normalize, removeStrict_slackValue, moveLR_slackValue]

lemma normalize_leftSide_var (c : Constraint) :
    ∀ p ∈ c.normalize.leftSide.terms, p.1 ≠ "1" := by
  rw [Constraint.normalize, removeStrict_leftSide]
  exact moveLR_leftSide_var c

lemma normalize_rightSide_const (c : Constraint) :
    ∀ p ∈ c.normalize.rightSide.terms, p.1 = "1" := by
  intro p hp
  rcases removeStrict_rightSide_cases (c.moveTypeToOneSide "left" "right") with h | ⟨q, h⟩
  · rw [Constraint.normalize, h] at hp
    exact moveLR_rightSide_const c p hp
  · rw [Constraint.normalize, h] at hp
    rcases mem_names_addTerm (mem_terms_name hp) with h2 | h2
    · obtain ⟨r, hr, hr2⟩ := List.mem_map.mp h2
      rw [← hr2]
      exact moveLR_rightSide_const c r hr
    · exact h2

lemma variableTerms_nil_of_const {e : Expression}
    (h : ∀ p ∈ e.terms, p.1 = "1") : e.variableTerms = [] := by
  rw [Expression.variableTerms, List.filter_eq_nil_iff]
  intro p hp
  simp [h p hp]

lemma constantTerms_nil_of_var {e : Expression}
    (h : ∀ p ∈ e.terms, p.1 ≠ "1") : e.constantTerms = [] := by
  rw [Expression.constantTerms, List.filter_eq_nil_iff]
  intro p hp
  simp [h p hp]

lemma moveLR_of_normalized {d : Constraint}
    (hR : ∀ p ∈ d.rightSide.terms, p.1 = "1")
    (hL : ∀ p ∈ d.leftSide.terms, p.1 ≠ "1") :
    d.moveTypeToOneSide "left" "right" = d := by
  rw [moveLR_eq, variableTerms_nil_of_const hR]
  have h1 : addAllFold d.leftSide [] = d.leftSide := rfl
  have h2 : removeAllFold d.rightSide [] = d.rightSide := rfl
  rw [h1, h2, constantTerms_nil_of_var hL]
  rfl

lemma normalize_comparison_not_strict (c : Constraint) :
    c.normalize.comparison ≠ "<" ∧ c.normalize.comparison ≠ ">" := by
  rw [normalize_comparison]
  by_cases h1 : c.comparison = "<"
  · simp [h1]
  · by_cases h2 : c.comparison = ">"
    · simp [h1, h2]
    · simp [h1, h2]

lemma normalize_idem (c : Constraint) : c.normalize.normalize = c.normalize := by
  obtain ⟨h1, h2⟩ := normalize_comparison_not_strict c
  show (c.normalize.moveTypeToOneSide "left" "right").removeStrictInEquality = c.normalize
  rw [moveLR_of_normalized (normalize_rightSide_const c) (normalize_leftSide_var c),
    removeStrict_of_nonstrict h1 h2]

/-! ## Lemmas about evaluation and inversion -/

lemma eval_addTerm (e : Expression) (n : String) (q : ℚ) (v : String → ℚ) :
    (e.addTerm n q).eval v = e.eval v + (if n = "1" then q else q * v n) := by
  by_cases h : e.hasTerm n
  · rw [Expression.addTerm, if_pos h]
    obtain ⟨l⟩ := e
    rw [Expression.hasTerm] at h
    induction l with
    | nil => simp at h
    | cons p rest ih =>
      by_cases hp : p.1 = n
      · subst hp
        simp only [updateFirst, if_pos rfl, Expression.eval, List.map_cons, List.sum_cons]
        by_cases h1 : p.1 = "1" <;> simp [h1] <;> ring
      · have hr : rest.any (fun r => r.1 == n) = true := by
          rcases List.any_eq_true.mp h with ⟨r, hr1, hr2⟩
          rcases List.mem_cons.mp hr1 with h3 | h3
          · exact absurd (h3 ▸ eq_of_beq hr2) hp
          · exact List.any_eq_true.mpr ⟨r, h3, hr2⟩
        have hrec := ih hr
        simp only [Expression.eval] at hrec
        simp only [updateFirst, if_neg hp, Expression.eval, List.map_cons,
          List.sum_cons]
        rw [hrec]
        ring
  · rw [Expression.addTerm, if_neg h]
    show ((e.terms ++ [(n, q)]).map
      (fun p => if p.1 = "1" then p.2 else p.2 * v p.1)).sum = _
    rw [List.map_append, List.sum_append]
    simp [Expression.eval]

lemma map_neg_neg (l : List (String × ℚ)) :
    (l.map (fun p => (p.1, p.2 * -1))).map (fun p => (p.1, p.2 * -1)) = l := by
  induction l with
  | nil => rfl
  | cons p rest ih =>
    simp only [List.map_cons, ih]
    simp

lemma expression_inverse_involutive (e : Expression) : e.inverse.inverse = e := by
  obtain ⟨l⟩ := e
  show (⟨(l.map (fun p => (p.1, p.2 * -1))).map (fun p => (p.1, p.2 * -1))⟩ :
    Expression) = ⟨l⟩
  rw [map_neg_neg]

lemma constraint_inverse_involutive (c : Constraint) : c.inverse.inverse = c := by
  obtain ⟨cmp, l, r, sv⟩ := c
  simp [Constraint.inverse, expression_inverse_involutive]

/-! ## Lemmas about parsing -/

lemma compareAt_cases {cs : List Char} {cmp : String} {r : List Char}
    (h : compareAt cs = some (cmp, r)) :
    cmp = "<=" ∨ cmp = "<" ∨ cmp = ">=" ∨ cmp = ">" ∨ cmp = "=" := by
  cases cs with
  | nil => simp [compareAt] at h
  | cons c rest =>
    simp only [compareAt] at h
    split_ifs at h <;> simp_all

lemma findComparisonSplit_cases :
    ∀ {cs l : List Char} {cmp : String} {r : List Char},
      findComparisonSplit cs = some (l, cmp, r) →
      cmp = "<=" ∨ cmp = "<" ∨ cmp = ">=" ∨ cmp = ">" ∨ cmp = "=" := by
  intro cs
  induction cs with
  | nil => intro l cmp r h; simp [findComparisonSplit] at h
  | cons c rest ih =>
    intro l cmp r h
    unfold findComparisonSplit at h
    cases hc : compareAt (c :: rest) with
    | some cr =>
      obtain ⟨cmp2, r2⟩ := cr
      rw [hc] at h
      simp at h
      obtain ⟨-, h2, -⟩ := h
      subst h2
      exact compareAt_cases hc
    | none =>
      rw [hc] at h
      cases hf : findComparisonSplit rest with
      | some lr =>
        obtain ⟨l2, cmp2, r2⟩ := lr
        rw [hf] at h
        simp at h
        obtain ⟨-, h2, -⟩ := h
        subst h2
        exact ih hf
      | none =>
        rw [hf] at h
        simp at h

lemma cmpOf_cases (s : String) :
    cmpOf s = "<=" ∨ cmpOf s = "<" ∨ cmpOf s = ">=" ∨ cmpOf s = ">" ∨
      cmpOf s = "=" := by
  unfold cmpOf
  cases hf : findComparisonSplit s.toList with
  | none => simp
  | some lcr => exact findComparisonSplit_cases hf

lemma parse_ok_fields {s : String} {c : Constraint}
    (h : Constraint.parse s = Except.ok c) :
    c.slackValue = 0 ∧
      (c.comparison = "<=" ∨ c.comparison = "<" ∨ c.comparison = ">=" ∨
        c.comparison = ">" ∨ c.comparison = "=") := by
  unfold Constraint.parse at h
  cases he : Constraint.getErrorMessage s with
  | some msg => rw [he] at h; simp at h
  | none =>
    rw [he] at h
    cases hl : Expression.parse (lhsStrOf s) with
    | error e => rw [hl] at h; simp at h
    | ok lhs =>
      rw [hl] at h
      cases hr : Expression.parse (rhsStrOf s) with
      | error e => rw [hr] at h; simp at h
      | ok rhs =>
        rw [hr] at h
        simp only [Except.ok.injEq] at h
        rw [← h]
        exact ⟨rfl, cmpOf_cases s⟩

/-! ## Claim theorems -/

/-- C5: for every successfully parsed Constraint `c`, calling `normalize()` a
second time after `c.normalize()` changes nothing: both side Expressions, the
comparison operator, and `slackValue` are identical before and after the
second call (`normalize` is idempotent). -/
theorem c5_normalize_idempotent (s : String) (c : Constraint)
    (_h : Constraint.parse s = Except.ok c) :
    c.normalize.normalize = c.normalize ∧
    c.normalize.normalize.leftSide = c.normalize.leftSide ∧
    c.normalize.normalize.rightSide = c.normalize.rightSide ∧
    c.normalize.normalize.comparison = c.normalize.comparison ∧
    c.normalize.normalize.slackValue = c.normalize.slackValue := by
  have h2 := normalize_idem c
  exact ⟨h2, by rw [h2], by rw [h2], by rw [h2], by rw [h2]⟩

/-- Witness for C5 at the parsed constraint of "x + y <= 4". -/
theorem c5_witness :
    Constraint.parse "x + y <= 4" =
      Except.ok ⟨"<=", ⟨[("x", 1), ("y", 1)]⟩, ⟨[("1", 4)]⟩, 0⟩ ∧
    (⟨"<=", ⟨[("x", 1), ("y", 1)]⟩, ⟨[("1", 4)]⟩, 0⟩ : Constraint).normalize.normalize =
      (⟨"<=", ⟨[("x", 1), ("y", 1)]⟩, ⟨[("1", 4)]⟩, 0⟩ : Constraint).normalize :=
  ⟨rfl, (c5_normalize_idempotent "x + y <= 4" _ rfl).1⟩

/-- C4: for every Constraint whose comparison is one of "<", ">", "<=", ">=",
"=", applying `negateComparison()` twice restores the original comparison
operator and the original (unnegated) coefficients on both sides —
`negateComparison` is an involution. -/
theorem c4_negateComparison_involution (c : Constraint)
    (h : c.comparison = "<" ∨ c.comparison = ">" ∨ c.comparison = "<=" ∨
      c.comparison = ">=" ∨ c.comparison = "=") :
    c.negateComparison.negateComparison = c := by
  obtain ⟨cmp, l, r, sv⟩ := c
  simp only at h
  rcases h with h|h|h|h|h <;> subst h <;>
    simp [Constraint.negateComparison, Constraint.inverse, expression_inverse_involutive]

/-- Witness for C4 at a concrete "<" constraint. -/
theorem c4_witness :
    (⟨"<", ⟨[("x", 1)]⟩, ⟨[("1", 3)]⟩, 0⟩ : Constraint).negateComparison.negateComparison
      = ⟨"<", ⟨[("x", 1)]⟩, ⟨[("1", 3)]⟩, 0⟩ :=
  c4_negateComparison_involution _ (Or.inl rfl)

/-- C3: for every Constraint with strict comparison "<" (respectively ">"),
`removeStrictInEquality()` changes the comparison to "<=" (respectively ">=")
and adds exactly -1e-6 (respectively +1e-6) to the constant term "1" of the
constant side (`rightSide`, where the normal form keeps the constants), so
that the resulting non-strict constraint implies the original strict one; for
any non-strict comparison it changes nothing. -/
theorem c3_removeStrictInEquality (c : Constraint) (v : String → ℚ) :
    (c.comparison = "<" →
      c.removeStrictInEquality =
        { c with comparison := "<=",
                 rightSide := c.rightSide.addTerm "1" (-(1 / 1000000)) } ∧
      (c.removeStrictInEquality.satisfied v → c.satisfied v)) ∧
    (c.comparison = ">" →
      c.removeStrictInEquality =
        { c with comparison := ">=",
                 rightSide := c.rightSide.addTerm "1" (1 / 1000000) } ∧
      (c.removeStrictInEquality.satisfied v → c.satisfied v)) ∧
    (c.comparison ≠ "<" → c.comparison ≠ ">" →
      c.removeStrictInEquality = c) := by
  refine ⟨?_, ?_, fun h1 h2 => removeStrict_of_nonstrict h1 h2⟩
  · intro h
    have heq : c.removeStrictInEquality =
        { c with comparison := "<=",
                 rightSide := c.rightSide.addTerm "1" (-(1 / 1000000)) } := by
      unfold Constraint.removeStrictInEquality
      rw [h]
      rw [if_pos (by decide)]
      have hb : strTestSub ">" "<=" = false := by decide
      simp [hb, Constraint.EPSILON]
    refine ⟨heq, ?_⟩
    intro hs
    rw [heq] at hs
    unfold Constraint.satisfied at hs ⊢
    rw [h]
    simp only [String.reduceEq, reduceIte] at hs ⊢
    rw [eval_addTerm] at hs
    simp only [reduceIte] at hs
    have hpos : (0 : ℚ) < 1 / 1000000 := by norm_num
    simp at hs
    linarith
  · intro h
    have heq : c.removeStrictInEquality =
        { c with comparison := ">=",
                 rightSide := c.rightSide.addTerm "1" (1 / 1000000) } := by
      unfold Constraint.removeStrictInEquality
      rw [h]
      rw [if_pos (by decide)]
      have hb : strTestSub ">" ">=" = true := by decide
      simp [hb, Constraint.EPSILON]
    refine ⟨heq, ?_⟩
    intro hs
    rw [heq] at hs
    unfold Constraint.satisfied at hs ⊢
    rw [h]
    simp only [String.reduceEq, reduceIte] at hs ⊢
    rw [eval_addTerm] at hs
    simp only [reduceIte] at hs
    have hpos : (0 : ℚ) < 1 / 1000000 := by norm_num
    simp at hs
    linarith

/-- Witness for C3 at a concrete "<" constraint and the zero assignment. -/
theorem c3_witness :
    (⟨"<", ⟨[("x", 1)]⟩, ⟨[("1", 3)]⟩, 0⟩ : Constraint).removeStrictInEquality =
      { comparison := "<=", leftSide := ⟨[("x", 1)]⟩,
        rightSide := (⟨[("1", 3)]⟩ : Expression).addTerm "1" (-(1 / 1000000)),
        slackValue := 0 } ∧
    ((⟨"<", ⟨[("x", 1)]⟩, ⟨[("1", 3)]⟩, 0⟩ : Constraint).removeStrictInEquality.satisfied
        (fun _ => 0) →
      (⟨"<", ⟨[("x", 1)]⟩, ⟨[("1", 3)]⟩, 0⟩ : Constraint).satisfied (fun _ => 0)) :=
  (c3_removeStrictInEquality ⟨"<", ⟨[("x", 1)]⟩, ⟨[("1", 3)]⟩, 0⟩ (fun _ => 0)).1 rfl

/-! ## C1 supporting lemmas -/

lemma normalize_comparison_cases {c : Constraint}
    (h : c.comparison = "<=" ∨ c.comparison = "<" ∨ c.comparison = ">=" ∨
      c.comparison = ">" ∨ c.comparison = "=") :
    c.normalize.comparison = "<=" ∨ c.normalize.comparison = ">=" ∨
      c.normalize.comparison = "=" := by
  rw [normalize_comparison]
  rcases h with h|h|h|h|h <;> simp [h]

lemma gsmf_of_le {c : Constraint} (h : c.normalize.comparison = "<=") :
    c.getStandardMaxForm = { c.normalize.addSlack with comparison := "=" } := by
  simp [Constraint.getStandardMaxForm, h]

lemma gsmf_of_ge {c : Constraint} (h : c.normalize.comparison = ">=") :
    c.getStandardMaxForm = { c.normalize.addSurplus with comparison := "=" } := by
  simp [Constraint.getStandardMaxForm, h]

lemma gsmf_of_other {c : Constraint} (h1 : c.normalize.comparison ≠ "<=")
    (h2 : c.normalize.comparison ≠ ">=") :
    c.getStandardMaxForm = { c.normalize with comparison := "=" } := by
  simp [Constraint.getStandardMaxForm, h1, h2]

/-- C1: for every successfully parsed Constraint, after `getStandardMaxForm()`
the comparison is "=", every variable term sits on `leftSide` and every
constant term on `rightSide`; if the normalized comparison was "<=" a term
named "slack" with coefficient +1 has been appended to `leftSide` and
`slackValue == 1`; if it was ">=" a term named "surplus" with coefficient -1
has been appended and `slackValue == -1`; if it was "=" no slack or surplus
term is added and `slackValue` stays 0.  (The appended-term clause is stated
both as the `addTerm` call the source makes and, when the name is fresh, as a
literal list append.) -/
theorem c1_getStandardMaxForm (s : String) (c : Constraint)
    (h : Constraint.parse s = Except.ok c) :
    c.getStandardMaxForm.comparison = "=" ∧
    (∀ p ∈ c.getStandardMaxForm.leftSide.terms, p.1 ≠ "1") ∧
    (∀ p ∈ c.getStandardMaxForm.rightSide.terms, p.1 = "1") ∧
    (c.normalize.comparison = "<=" ∨ c.normalize.comparison = ">=" ∨
      c.normalize.comparison = "=") ∧
    (c.normalize.comparison = "<=" →
      c.getStandardMaxForm.slackValue = 1 ∧
      c.getStandardMaxForm.leftSide = c.normalize.leftSide.addTerm "slack" 1 ∧
      ("slack" ∉ c.normalize.leftSide.getTermNames →
        c.getStandardMaxForm.leftSide.terms
          = c.normalize.leftSide.terms ++ [("slack", 1)])) ∧
    (c.normalize.comparison = ">=" →
      c.getStandardMaxForm.slackValue = -1 ∧
      c.getStandardMaxForm.leftSide = c.normalize.leftSide.addTerm "surplus" (-1) ∧
      ("surplus" ∉ c.normalize.leftSide.getTermNames →
        c.getStandardMaxForm.leftSide.terms
          = c.normalize.leftSide.terms ++ [("surplus", -1)])) ∧
    (c.normalize.comparison = "=" →
      c.getStandardMaxForm.slackValue = 0 ∧
      c.getStandardMaxForm.leftSide = c.normalize.leftSide ∧
      c.getStandardMaxForm.rightSide = c.normalize.rightSide) := by
  obtain ⟨hsv, hcmp⟩ := parse_ok_fields h
  have htri := normalize_comparison_cases hcmp
  refine ⟨?_, ?_, ?_, htri, ?_, ?_, ?_⟩
  · rcases htri with ht|ht|ht
    · rw [gsmf_of_le ht]
    · rw [gsmf_of_ge ht]
    · rw [gsmf_of_other (by rw [ht]; decide) (by rw [ht]; decide)]
  · intro p hp
    rcases htri with ht|ht|ht
    · rw [gsmf_of_le ht] at hp
      have hp2 : p ∈ (c.normalize.leftSide.addTerm "slack" 1).terms := hp
      rcases mem_names_addTerm (mem_terms_name hp2) with h3 | h3
      · obtain ⟨q, hq, hq2⟩ := List.mem_map.mp h3
        exact hq2 ▸ normalize_leftSide_var c q hq
      · rw [h3]; decide
    · rw [gsmf_of_ge ht] at hp
      have hp2 : p ∈ (c.normalize.leftSide.addTerm "surplus" (-1)).terms := hp
      rcases mem_names_addTerm (mem_terms_name hp2) with h3 | h3
      · obtain ⟨q, hq, hq2⟩ := List.mem_map.mp h3
        exact hq2 ▸ normalize_leftSide_var c q hq
      · rw [h3]; decide
    · rw [gsmf_of_other (by rw [ht]; decide) (by rw [ht]; decide)] at hp
      exact normalize_leftSide_var c p hp
  · intro p hp
    rcases htri with ht|ht|ht
    · rw [gsmf_of_le ht] at hp
      exact normalize_rightSide_const c p hp
    · rw [gsmf_of_ge ht] at hp
      exact normalize_rightSide_const c p hp
    · rw [gsmf_of_other (by rw [ht]; decide) (by rw [ht]; decide)] at hp
      exact normalize_rightSide_const c p hp
  · intro ht
    rw [gsmf_of_le ht]
    exact ⟨rfl, rfl, fun hnm => addTerm_of_not_mem hnm 1⟩
  · intro ht
    rw [gsmf_of_ge ht]
    exact ⟨rfl, rfl, fun hnm => addTerm_of_not_mem hnm (-1)⟩
  · intro ht
    rw [gsmf_of_other (by rw [ht]; decide) (by rw [ht]; decide)]
    refine ⟨?_, rfl, rfl⟩
    show c.normalize.slackValue = 0
    rw [normalize_slackValue]
    exact hsv

/-- Witness for C1 at the parsed constraint of "x + y <= 4". -/
theorem c1_witness :
    Constraint.parse "x + y <= 4" =
      Except.ok ⟨"<=", ⟨[("x", 1), ("y", 1)]⟩, ⟨[("1", 4)]⟩, 0⟩ ∧
    (⟨"<=", ⟨[("x", 1), ("y", 1)]⟩, ⟨[("1", 4)]⟩, 0⟩ :
        Constraint).getStandardMaxForm.comparison = "=" ∧
    (⟨"<=", ⟨[("x", 1), ("y", 1)]⟩, ⟨[("1", 4)]⟩, 0⟩ :
        Constraint).getStandardMaxForm.slackValue = 1 :=
  ⟨rfl, (c1_getStandardMaxForm "x + y <= 4" _ rfl).1,
    ((c1_getStandardMaxForm "x + y <= 4" _ rfl).2.2.2.2.1 (by rfl)).1⟩

/-! ## C6 and C7: rejected inputs -/

/-- C6: for every input string containing more than one comparison operator
drawn from "<", ">", "<=", ">=", "=" (counted by the greedy scan of the
source regex over the whitespace-stripped text), `Constraint.parse` reports a
parse error and constructs no Constraint. -/
theorem c6_many_compares_rejected (s : String)
    (h : 1 < countCompares (removeWs s)) :
    ∃ msg, Constraint.parse s = Except.error msg := by
  have hm : Constraint.hasManyCompares s = true := by
    rw [Constraint.hasManyCompares]
    exact decide_eq_true h
  exact ⟨"Only 1 comparision (<,>,=, >=, <=) is allow in a Constraint.",
    by simp [Constraint.parse, Constraint.getErrorMessage, hm]⟩

/-- Witness for C6 at "a < b < c". -/
theorem c6_witness :
    1 < countCompares (removeWs "a < b < c") ∧
    ∃ msg, Constraint.parse "a < b < c" = Except.error msg :=
  ⟨by decide, c6_many_compares_rejected "a < b < c" (by decide)⟩

lemma hasNoLeftRight_append {rest : List Char} (pre : List Char)
    (hne : rest ≠ []) (h : hasNoLeftRight rest = true) :
    hasNoLeftRight (pre ++ rest) = true := by
  induction pre with
  | nil => simpa
  | cons x pre ih =>
    cases hp : pre ++ rest with
    | nil => exact absurd (List.append_eq_nil.mp hp).2 hne
    | cons y tail =>
      show hasNoLeftRight (x :: (pre ++ rest)) = true
      rw [hp, hasNoLeftRight]
      rw [hp] at ih
      simp [ih]

/-- C7: for every input string in which a "+" or "-" operator is missing one
of its operands — a "+"/"-" immediately followed by another operator in the
whitespace-stripped text, or an operator at the (trailing) string boundary,
where its right operand is missing — `Constraint.parse` reports a parse
error.  (A leading "+"/"-" is the sign of the first term and is accepted by
the term grammar, so the boundary case is the trailing one.) -/
theorem c7_incomplete_operator_rejected (s : String)
    (h : (∃ pre c1 c2 post, removeWs s = pre ++ c1 :: c2 :: post ∧
            isPlusMinus c1 = true ∧ isOpChar c2 = true) ∨
         (∃ pre c, removeWs s = pre ++ [c] ∧ isOpChar c = true)) :
    ∃ msg, Constraint.parse s = Except.error msg := by
  have hi : Constraint.hasIncompleteBinaryOperator s = true := by
    rw [Constraint.hasIncompleteBinaryOperator]
    have hl : hasNoLeftRight (removeWs s) = true := by
      rcases h with ⟨pre, c1, c2, post, heq, h1, h2⟩ | ⟨pre, c, heq, h1⟩
      · rw [heq]
        refine hasNoLeftRight_append pre (by simp) ?_
        rw [hasNoLeftRight]
        simp [h1, h2]
      · rw [heq]
        refine hasNoLeftRight_append pre (by simp) ?_
        simpa [hasNoLeftRight] using h1
    simp [hl]
  by_cases hm : Constraint.hasManyCompares s
  · exact ⟨"Only 1 comparision (<,>,=, >=, <=) is allow in a Constraint.",
      by simp [Constraint.parse, Constraint.getErrorMessage, hm]⟩
  · exact ⟨"Math operators must be in between terms. Good:(a+b=c). Bad:(a b+=c)",
      by simp [Constraint.parse, Constraint.getErrorMessage, hm, hi]⟩

/-- Witness for C7 at "a + + b = 3". -/
theorem c7_witness :
    removeWs "a + + b = 3" = ['a', '+', '+', 'b', '=', '3'] ∧
    ∃ msg, Constraint.parse "a + + b = 3" = Except.error msg :=
  ⟨by decide, c7_incomplete_operator_rejected "a + + b = 3"
    (Or.inl ⟨['a'], '+', '+', ['b', '=', '3'], by decide, by decide, by decide⟩)⟩

/-! ## C8: structural equality is one-sided -/

lemma exprSameWalk_iff {l1 l2 : List (String × ℚ)} :
    exprSameWalk l1 l2 = some true ↔
      ∀ p ∈ l1, termsLookup l2 p.1 = some p.2 := by
  induction l1 with
  | nil => simp [exprSameWalk]
  | cons p rest ih =>
    rw [exprSameWalk]
    cases hl : termsLookup l2 p.1 with
    | none => simp [hl, List.forall_mem_cons]
    | some w =>
      by_cases hw : p.2 = w
      · subst hw
        simp [hl, ih, List.forall_mem_cons]
      · simp [hl, hw, List.forall_mem_cons]
        intro h
        exact absurd h.symm hw

/-- C8 counterexample: `equals` walks only the receiver's own fields, so it
returns true on a pair of Constraints that are NOT deeply structurally equal
(the second has an extra term "y" the walk never visits). -/
theorem c8_counterexample :
    Constraint.equalsWalk ⟨"=", ⟨[("x", 1)]⟩, ⟨[("1", 0)]⟩, 0⟩
        ⟨"=", ⟨[("x", 1), ("y", 2)]⟩, ⟨[("1", 0)]⟩, 0⟩ = some true ∧
      (⟨"=", ⟨[("x", 1)]⟩, ⟨[("1", 0)]⟩, 0⟩ : Constraint) ≠
        ⟨"=", ⟨[("x", 1), ("y", 2)]⟩, ⟨[("1", 0)]⟩, 0⟩ :=
  ⟨rfl, by decide⟩

/-- C8 amended: `a.equals(b)` returns true if and only if the scalar fields
agree and every term of each of `a`'s sides occurs in `b`'s corresponding
side with the same coefficient — a one-sided inclusion that ignores any extra
fields of `b` (and the walk throws, returning no boolean, when a term of `a`
is missing from `b` and no earlier mismatch stopped it). -/
theorem c8_equals_one_sided (a b : Constraint) :
    Constraint.equalsWalk a b = some true ↔
      (a.comparison = b.comparison ∧ a.slackValue = b.slackValue ∧
       (∀ p ∈ a.leftSide.terms, termsLookup b.leftSide.terms p.1 = some p.2) ∧
       (∀ p ∈ a.rightSide.terms, termsLookup b.rightSide.terms p.1 = some p.2)) := by
  unfold Constraint.equalsWalk
  by_cases hc : a.comparison = b.comparison
  · rw [if_neg (by simpa using hc)]
    cases hL : exprSameWalk a.leftSide.terms b.leftSide.terms with
    | none =>
      constructor
      · intro h; simp at h
      · rintro ⟨-, -, h3, -⟩
        exact absurd (exprSameWalk_iff.mpr h3) (by simp [hL])
    | some bL =>
      cases bL with
      | false =>
        constructor
        · intro h; simp at h
        · rintro ⟨-, -, h3, -⟩
          exact absurd (exprSameWalk_iff.mpr h3) (by simp [hL])
      | true =>
        cases hR : exprSameWalk a.rightSide.terms b.rightSide.terms with
        | none =>
          constructor
          · intro h; simp at h
          · rintro ⟨-, -, -, h4⟩
            exact absurd (exprSameWalk_iff.mpr h4) (by simp [hR])
        | some bR =>
          cases bR with
          | false =>
            constructor
            · intro h; simp at h
            · rintro ⟨-, -, -, h4⟩
              exact absurd (exprSameWalk_iff.mpr h4) (by simp [hR])
          | true =>
            simp only [Option.some.injEq, decide_eq_true_eq]
            constructor
            · intro h
              exact ⟨hc, h, exprSameWalk_iff.mp hL, exprSameWalk_iff.mp hR⟩
            · rintro ⟨-, h2, -, -⟩
              exact h2
  · rw [if_pos (by simpa using hc)]
    constructor
    · intro h; simp at h
    · rintro ⟨h1, -, -, -⟩
      exact absurd h1 hc

/-! ## C9: varSwitchSide -/

/-- C9: a term name that JavaScript reads as a number (`isNaN(name)` false,
e.g. "30") makes `varSwitchSide(name, moveTo)` operate on the reserved
constant term "1" instead; and a `moveTo` that does not match the regex
`/left|right/` (no "left" or "right" substring) leaves the Constraint
completely unchanged. -/
theorem c9_varSwitchSide (c : Constraint) (name moveTo : String) :
    (jsStrIsNumeric name = true →
      c.varSwitchSide name moveTo = c.varSwitchSide "1" moveTo) ∧
    (strTestSub "left" moveTo = false → strTestSub "right" moveTo = false →
      c.varSwitchSide name moveTo = c) := by
  constructor
  · intro h
    have h1 : jsStrIsNumeric "1" = true := by decide
    simp only [Constraint.varSwitchSide, h, h1, if_true]
  · intro h1 h2
    simp [Constraint.varSwitchSide, h1, h2]

/-- Witness for C9: the numeric name "30" behaves like "1", and the
non-matching side name "up" changes nothing. -/
theorem c9_witness :
    jsStrIsNumeric "30" = true ∧
    ((⟨"=", ⟨[("x", 1), ("1", 30)]⟩, ⟨[("y", 1)]⟩, 0⟩ : Constraint).varSwitchSide
        "30" "right"
      = (⟨"=", ⟨[("x", 1), ("1", 30)]⟩, ⟨[("y", 1)]⟩, 0⟩ : Constraint).varSwitchSide
        "1" "right") ∧
    strTestSub "left" "up" = false ∧
    ((⟨"=", ⟨[("x", 1), ("1", 30)]⟩, ⟨[("y", 1)]⟩, 0⟩ : Constraint).varSwitchSide
        "x" "up"
      = ⟨"=", ⟨[("x", 1), ("1", 30)]⟩, ⟨[("y", 1)]⟩, 0⟩) :=
  ⟨by decide,
   (c9_varSwitchSide ⟨"=", ⟨[("x", 1), ("1", 30)]⟩, ⟨[("y", 1)]⟩, 0⟩ "30" "right").1
     (by decide),
   by decide,
   (c9_varSwitchSide ⟨"=", ⟨[("x", 1), ("1", 30)]⟩, ⟨[("y", 1)]⟩, 0⟩ "x" "up").2
     (by decide) (by decide)⟩

/-! ## C10: getTermNames -/

lemma getUniqueArrayAux_eq (l : List String) :
    ∀ seen, getUniqueArrayAux l seen =
      dedupFirstOccAux
        (l.filter (fun x => !(decide (x ∈ objectPrototypeProps)))) seen := by
  induction l with
  | nil => intro seen; rfl
  | cons x rest ih =>
    intro seen
    by_cases hp : x ∈ objectPrototypeProps
    · simp [getUniqueArrayAux, hp, ih]
    · by_cases hs : x ∈ seen
      · simp [getUniqueArrayAux, hp, hs, dedupFirstOccAux, ih]
      · simp [getUniqueArrayAux, hp, hs, dedupFirstOccAux, ih]

/-- C10: `getTermNames()` returns the first occurrence of each term name of
both sides in order with later duplicates removed, except that any term name
that is also a property name inherited from `Object.prototype` (such as
"constructor" or "toString") is omitted from the result entirely, even on its
first occurrence. -/
theorem c10_getTermNames (c : Constraint) :
    c.getTermNames =
      dedupFirstOcc ((c.leftSide.getTermNames ++ c.rightSide.getTermNames).filter
        (fun x => !(decide (x ∈ objectPrototypeProps)))) := by
  rw [Constraint.getTermNames, getUniqueArray, dedupFirstOcc, getUniqueArrayAux_eq]

/-! ## C2: the slack names collide -/

/-- C2 evaluation: two distinct "<=" constraints both get a slack variable
with the SAME literal name "slack" (the last appended left-side term of each
standard max form), so the introduced names are not distinct. -/
theorem c2_slack_names_collide :
    ∃ c1 c2 : Constraint,
      Constraint.parse "x + y <= 4" = Except.ok c1 ∧
      Constraint.parse "a + b <= 2" = Except.ok c2 ∧
      c1.getStandardMaxForm.leftSide.hasTerm "slack" = true ∧
      c2.getStandardMaxForm.leftSide.hasTerm "slack" = true ∧
      (c1.getStandardMaxForm.leftSide.getTermNames).getLast? =
        (c2.getStandardMaxForm.leftSide.getTermNames).getLast? :=
  ⟨⟨"<=", ⟨[("x", 1), ("y", 1)]⟩, ⟨[("1", 4)]⟩, 0⟩,
   ⟨"<=", ⟨[("a", 1), ("b", 1)]⟩, ⟨[("1", 2)]⟩, 0⟩,
   rfl, rfl, rfl, rfl, rfl⟩

end YASMIJ
